import Mathlib

/-!
Shallow embedding of the `rlox` front end (scanner in `src/scanner.rs`,
parser in `src/parser.rs`, token model in `src/token.rs`, errors in
`src/error.rs`), together with theorems settling the frozen claims about
its natural-language specification.

Modelling conventions:
* Rust machine integers (`i32` cursors, line counters) are modelled as `Nat`;
  they are only ever incremented from `0`/`1` or decremented right after an
  increment, so no wrap-around is reachable.
* The scanner's `i64` number payload is modelled as `Int` with the explicit
  `i64::MAX` bound check performed by `str::parse::<i64>` on an all-digit
  string.
* Rust panics (out-of-bounds `Vec` indexing in `Scanner::back`/`advance`,
  `todo!()` in the parser) are modelled as an explicit `.panic` outcome.
* Character classification (`char::is_alphabetic`, `char::is_digit(10)`,
  `str::to_lowercase`) is modelled on the ASCII fragment, which is the only
  fragment the claims exercise.
* Loops are modelled with an explicit fuel argument; running out of fuel is
  the distinguished outcome `.outOfFuel`.  Termination claims are settled by
  proving which fuel is sufficient (scanner) or that no fuel is (parser).
-/

namespace Rlox

/-- Embedding of `TokenType` from `src/token.rs`. -/
inductive TokenType where
  | LeftParen | RightParen | LeftBrace | RightBrace | Comma | Dot | Minus | Plus
  | Semicolon | Slash | Star
  | Bang | BangEqual | Equal | EqualEqual | Greater | GreaterEqual | Less | LessEqual
  | Identifier | String | Number
  | And | Class | Else | False | Fun | For | If | Nil | Or | Print | Return | Super
  | This | True | Var | While
  | Eof
  deriving DecidableEq, Repr

/-- Embedding of `TokenLiteral` from `src/token.rs` (`Number(i64)` modelled as `Int`). -/
inductive TokenLiteral where
  | Number : Int → TokenLiteral
  | String : String → TokenLiteral
  deriving DecidableEq, Repr

/-- Embedding of `Token` from `src/token.rs`. -/
structure Token where
  token_type : TokenType
  lexeme : String
  literal : Option TokenLiteral
  line : Nat
  deriving DecidableEq, Repr

/-- Outcome of a scanner computation.  `err message line current` mirrors the
scanner's `RuntimeError::parse(message, self.line(), self.current())` calls;
`panic` is a Rust panic (out-of-bounds index); `outOfFuel` is exhausted fuel. -/
inductive ScanRes (α : Type) where
  | ok : α → ScanRes α
  | err : String → Nat → Nat → ScanRes α
  | panic : ScanRes α
  | outOfFuel : ScanRes α
  deriving DecidableEq, Repr

namespace Scanner

/-- Embedding of `Scanner::is_at_end`: `self.chars.len() as i32 == offset`. -/
def is_at_end (chars : List Char) (offset : Nat) : Bool := chars.length == offset

/-- Embedding of `Scanner::advance`: returns the character at the cursor and post-increments
the cursor.  `self.chars[current as usize]` panics when the cursor is past the
end. -/
def advance (chars : List Char) (pos : Nat) : ScanRes (Char × Nat) :=
  match chars[pos]? with
  | some c => .ok (c, pos + 1)
  | none => .panic

/-- Embedding of `Scanner::back`: decrements the cursor but indexes the vector at the OLD
cursor value, so it panics when called with the cursor at the end of input. -/
def back (chars : List Char) (pos : Nat) : ScanRes (Char × Nat) :=
  match chars[pos]? with
  | some c => .ok (c, pos - 1)
  | none => .panic

/-- Embedding of `Scanner::matches_at` (via `Scanner::peek`, whose error case is squashed
to `false`); the code compares `actual.to_string() == expected`. -/
def matches_at (chars : List Char) (expected : Char) (offset : Nat) : Bool :=
  match chars[offset]? with
  | some actual => actual == expected
  | none => false

/-- The loop of `Scanner::skip_inline_comment`: consumes characters until it
has consumed a newline (inclusive) or reached end of input; the line counter
is not touched. -/
def skip_comment_loop (chars : List Char) : Nat → Nat → ScanRes Nat
  | 0, _ => .outOfFuel
  | fuel + 1, pos =>
    match advance chars pos with
    | .ok (c, pos1) =>
      if c == '\n' || is_at_end chars pos1 then .ok pos1
      else skip_comment_loop chars fuel pos1
    | .err m l p => .err m l p
    | .panic => .panic
    | .outOfFuel => .outOfFuel

/-- Embedding of `Scanner::skip_inline_comment`: early return when already at the end,
otherwise the consuming loop. -/
def skip_inline_comment (chars : List Char) (fuel pos : Nat) : ScanRes Nat :=
  if is_at_end chars pos then .ok pos
  else skip_comment_loop chars fuel pos

/-- The loop of `Scanner::parse_string`.  Note the order of checks, exactly as
in the source: the end-of-input check (`is_at_end(current)` AFTER the advance)
fires before the closing-quote check, and before the embedded-newline line
increment. -/
def parse_string_loop (chars : List Char) :
    Nat → Nat → Nat → String → ScanRes (String × Nat × Nat)
  | 0, _, _, _ => .outOfFuel
  | fuel + 1, pos, line, lexeme =>
    match advance chars pos with
    | .ok (c, pos1) =>
      if is_at_end chars pos1 then .err "Unterminated string" line pos1
      else if c == '"' then .ok (lexeme, pos1, line)
      else
        let line1 := if c == '\n' then line + 1 else line
        parse_string_loop chars fuel pos1 line1 (lexeme.push c)
    | .err m l p => .err m l p
    | .panic => .panic
    | .outOfFuel => .outOfFuel

/-- Embedding of `Scanner::parse_string`: assembles the `String` token from the loop
result; the token's line is the line AFTER any embedded newlines. -/
def parse_string (chars : List Char) (fuel pos line : Nat) :
    ScanRes (Option Token × Nat × Nat) :=
  match parse_string_loop chars fuel pos line "" with
  | .ok (lexeme, pos1, line1) =>
    .ok (some ⟨TokenType.String, lexeme, some (TokenLiteral.String lexeme), line1⟩, pos1, line1)
  | .err m l p => .err m l p
  | .panic => .panic
  | .outOfFuel => .outOfFuel

/-- ASCII model of Rust's `char::is_digit(10)`. -/
def isDigitChar (c : Char) : Bool := c.isDigit

/-- ASCII model of Rust's `char::is_alphabetic` (note: underscore and digits
are NOT alphabetic). -/
def isAlphaChar (c : Char) : Bool := c.isAlpha

/-- The loop shared by `Scanner::parse_number` and `Scanner::parse_identifier`
(they differ only in the character class): advance; if now at the end, break
WITHOUT pushing the character just read; if the character is outside the
class, step back and break; otherwise push and continue. -/
def scan_run_loop (chars : List Char) (keep : Char → Bool) :
    Nat → Nat → String → ScanRes (String × Nat)
  | 0, _, _ => .outOfFuel
  | fuel + 1, pos, lexeme =>
    match advance chars pos with
    | .ok (c, pos1) =>
      if is_at_end chars pos1 then .ok (lexeme, pos1)
      else if !(keep c) then
        match back chars pos1 with
        | .ok (_, pos2) => .ok (lexeme, pos2)
        | .err m l p => .err m l p
        | .panic => .panic
        | .outOfFuel => .outOfFuel
      else scan_run_loop chars keep fuel pos1 (lexeme.push c)
    | .err m l p => .err m l p
    | .panic => .panic
    | .outOfFuel => .outOfFuel

/-- Model of `lexeme.parse::<i64>()` on the scanner's digit-only lexemes:
fails on the empty string and on overflow past `i64::MAX`. -/
def parseI64 (s : String) : Option Int :=
  if s.data.isEmpty then none
  else if s.data.all isDigitChar then
    let n : Nat := s.data.foldl (fun acc c => acc * 10 + (c.toNat - 48)) 0
    if n ≤ 9223372036854775807 then some (Int.ofNat n) else none
  else none

/-- Embedding of `Scanner::parse_number`: steps back first (panicking when the digit was
the final character), runs the digit loop, then parses the lexeme. -/
def parse_number (chars : List Char) (fuel pos line : Nat) :
    ScanRes (Option Token × Nat × Nat) :=
  match back chars pos with
  | .ok (_, pos0) =>
    match scan_run_loop chars isDigitChar fuel pos0 "" with
    | .ok (lexeme, pos1) =>
      match parseI64 lexeme with
      | some n =>
        .ok (some ⟨TokenType.Number, lexeme, some (TokenLiteral.Number n), line⟩, pos1, line)
      | none => .err ("Could not parse number: `" ++ lexeme ++ "`") line pos1
    | .err m l p => .err m l p
    | .panic => .panic
    | .outOfFuel => .outOfFuel
  | .err m l p => .err m l p
  | .panic => .panic
  | .outOfFuel => .outOfFuel

/-- ASCII model of `str::to_lowercase`. -/
def lowerString (s : String) : String := String.mk (s.data.map Char.toLower)

/-- The keyword dispatch at the end of `Scanner::parse_identifier`: the
lexeme is lowercased for the comparison, the emitted token keeps the
original-case lexeme. -/
def keyword_token (lexeme : String) (line : Nat) : Token :=
  match lowerString lexeme with
  | "and" => ⟨TokenType.And, lexeme, none, line⟩
  | "class" => ⟨TokenType.Class, lexeme, none, line⟩
  | "else" => ⟨TokenType.Else, lexeme, none, line⟩
  | "false" => ⟨TokenType.False, lexeme, none, line⟩
  | "for" => ⟨TokenType.For, lexeme, none, line⟩
  | "fun" => ⟨TokenType.Fun, lexeme, none, line⟩
  | "if" => ⟨TokenType.If, lexeme, none, line⟩
  | "nil" => ⟨TokenType.Nil, lexeme, none, line⟩
  | "or" => ⟨TokenType.Or, lexeme, none, line⟩
  | "print" => ⟨TokenType.Print, lexeme, none, line⟩
  | "return" => ⟨TokenType.Return, lexeme, none, line⟩
  | "super" => ⟨TokenType.Super, lexeme, none, line⟩
  | "this" => ⟨TokenType.This, lexeme, none, line⟩
  | "true" => ⟨TokenType.True, lexeme, none, line⟩
  | "var" => ⟨TokenType.Var, lexeme, none, line⟩
  | "while" => ⟨TokenType.While, lexeme, none, line⟩
  | _ => ⟨TokenType.Identifier, lexeme, none, line⟩

/-- Embedding of `Scanner::parse_identifier`: same back-then-loop shape as
`parse_number`, with `char::is_alphabetic` as the class, then the keyword
dispatch. -/
def parse_identifier (chars : List Char) (fuel pos line : Nat) :
    ScanRes (Option Token × Nat × Nat) :=
  match back chars pos with
  | .ok (_, pos0) =>
    match scan_run_loop chars isAlphaChar fuel pos0 "" with
    | .ok (lexeme, pos1) => .ok (some (keyword_token lexeme line), pos1, line)
    | .err m l p => .err m l p
    | .panic => .panic
    | .outOfFuel => .outOfFuel
  | .err m l p => .err m l p
  | .panic => .panic
  | .outOfFuel => .outOfFuel

/-- A single-character token as built by `scan_token`
(`Token::new(tt, next_char.to_string(), None, self.line())`). -/
def single (tt : TokenType) (c : Char) (line : Nat) : Token :=
  ⟨tt, c.toString, none, line⟩

/-- Embedding of `Scanner::scan_token`: classify the character under the cursor.  The
result is `(optional token, new cursor, new line)`.  Note that the two
character operators (`!=`, `==`, `>=`, `<=`) are emitted with only the FIRST
character as their lexeme, exactly as in the source
(`next_char.to_string()`). -/
def scan_token (chars : List Char) (fuel pos line : Nat) :
    ScanRes (Option Token × Nat × Nat) :=
  match advance chars pos with
  | .ok (c, pos1) =>
    match c with
    | ' ' => .ok (none, pos1, line)
    | '\r' => .ok (none, pos1, line)
    | '\t' => .ok (none, pos1, line)
    | '\n' => .ok (none, pos1, line + 1)
    | '(' => .ok (some (single .LeftParen '(' line), pos1, line)
    | ')' => .ok (some (single .RightParen ')' line), pos1, line)
    | '\x7b' => .ok (some (single .LeftBrace '\x7b' line), pos1, line)
    | '\x7d' => .ok (some (single .RightBrace '\x7d' line), pos1, line)
    | ',' => .ok (some (single .Comma ',' line), pos1, line)
    | '.' => .ok (some (single .Dot '.' line), pos1, line)
    | '+' => .ok (some (single .Plus '+' line), pos1, line)
    | '-' => .ok (some (single .Minus '-' line), pos1, line)
    | ';' => .ok (some (single .Semicolon ';' line), pos1, line)
    | '*' => .ok (some (single .Star '*' line), pos1, line)
    | '!' =>
      if !(is_at_end chars pos1) && matches_at chars '=' pos1 then
        match advance chars pos1 with
        | .ok (_, pos2) => .ok (some (single .BangEqual '!' line), pos2, line)
        | .err m l p => .err m l p
        | .panic => .panic
        | .outOfFuel => .outOfFuel
      else .ok (some (single .Bang '!' line), pos1, line)
    | '=' =>
      if !(is_at_end chars pos1) && matches_at chars '=' pos1 then
        match advance chars pos1 with
        | .ok (_, pos2) => .ok (some (single .EqualEqual '=' line), pos2, line)
        | .err m l p => .err m l p
        | .panic => .panic
        | .outOfFuel => .outOfFuel
      else .ok (some (single .Equal '=' line), pos1, line)
    | '>' =>
      if !(is_at_end chars pos1) && matches_at chars '=' pos1 then
        match advance chars pos1 with
        | .ok (_, pos2) => .ok (some (single .GreaterEqual '>' line), pos2, line)
        | .err m l p => .err m l p
        | .panic => .panic
        | .outOfFuel => .outOfFuel
      else .ok (some (single .Greater '>' line), pos1, line)
    | '<' =>
      if !(is_at_end chars pos1) && matches_at chars '=' pos1 then
        match advance chars pos1 with
        | .ok (_, pos2) => .ok (some (single .LessEqual '<' line), pos2, line)
        | .err m l p => .err m l p
        | .panic => .panic
        | .outOfFuel => .outOfFuel
      else .ok (some (single .Less '<' line), pos1, line)
    | '/' =>
      if !(is_at_end chars pos1) && matches_at chars '/' pos1 then
        match skip_inline_comment chars fuel pos1 with
        | .ok pos2 => .ok (none, pos2, line)
        | .err m l p => .err m l p
        | .panic => .panic
        | .outOfFuel => .outOfFuel
      else .ok (some (single .Slash '/' line), pos1, line)
    | '"' => parse_string chars fuel pos1 line
    | other =>
      if isDigitChar other then parse_number chars fuel pos1 line
      else if isAlphaChar other then parse_identifier chars fuel pos1 line
      else .err ("Unexpected token: " ++ other.toString) line pos1
  | .err m l p => .err m l p
  | .panic => .panic
  | .outOfFuel => .outOfFuel

/-- The loop of `Scanner::scan_tokens`: while not at the end, scan one token
and append it when one was produced; at the end append the `Eof` token. -/
def scan_tokens_loop (chars : List Char) :
    Nat → Nat → Nat → List Token → ScanRes (List Token)
  | 0, _, _, _ => .outOfFuel
  | fuel + 1, pos, line, tokens =>
    if is_at_end chars pos then .ok (tokens ++ [⟨TokenType.Eof, "", none, line⟩])
    else
      match scan_token chars (fuel + 1) pos line with
      | .ok (some t, pos1, line1) => scan_tokens_loop chars fuel pos1 line1 (tokens ++ [t])
      | .ok (none, pos1, line1) => scan_tokens_loop chars fuel pos1 line1 tokens
      | .err m l p => .err m l p
      | .panic => .panic
      | .outOfFuel => .outOfFuel

/-- Embedding of `Scanner::scan_tokens` on a source string: cursor starts at `0`, the line
counter at `1`.  The fuel `length + 1` is proved sufficient below
(`scan_tokens_total`). -/
def scan_tokens (source : String) : ScanRes (List Token) :=
  scan_tokens_loop source.data (source.data.length + 1) 0 1 []

end Scanner

end Rlox

/-! ## Parser (`src/parser.rs`)

The parser module uses its own token shape: `parser.rs` reads only
`token.value` (a `TokenValue` tag carrying payloads for identifier, string
and number literals), so the parser-side token is embedded with exactly that
field.  The `f64` number payload is carried opaquely and modelled as `Int`
(the parser never computes with it). -/

namespace Rlox

/-- Alias for the string type, needed inside inductives whose own `String`
constructor shadows it. -/
abbrev Str : Type := String

/-- Embedding of the `TokenValue` tags consumed by `Parser` (payload-carrying
variants for identifiers, strings and numbers). -/
inductive TokenValue where
  | LeftParen | RightParen | LeftBrace | RightBrace | Comma | Dot | Minus | Plus
  | Semicolon | Slash | Star
  | Bang | BangEqual | Equal | EqualEqual | Greater | GreaterEqual | Less | LessEqual
  | Identifier : Str → TokenValue
  | String : Str → TokenValue
  | Number : Int → TokenValue
  | And | Class | Else | False | Fun | For | If | Nil | Or | Print | Return | Super
  | This | True | Var | While
  | Eof
  deriving DecidableEq, Repr

/-- Parser-side token: `parser.rs` accesses only the `value` field. -/
structure PToken where
  value : TokenValue
  deriving DecidableEq, Repr

/-- Display of a `TokenValue` tag, used only inside error message strings
(`format!("Expected expression, found: `{t}`")`); the `Display`
implementation is not part of the sources, so the variant name is used. -/
def TokenValue.show : TokenValue → Str
  | .LeftParen => "LeftParen" | .RightParen => "RightParen"
  | .LeftBrace => "LeftBrace" | .RightBrace => "RightBrace"
  | .Comma => "Comma" | .Dot => "Dot" | .Minus => "Minus" | .Plus => "Plus"
  | .Semicolon => "Semicolon" | .Slash => "Slash" | .Star => "Star"
  | .Bang => "Bang" | .BangEqual => "BangEqual" | .Equal => "Equal"
  | .EqualEqual => "EqualEqual" | .Greater => "Greater"
  | .GreaterEqual => "GreaterEqual" | .Less => "Less" | .LessEqual => "LessEqual"
  | .Identifier s => "Identifier(" ++ s ++ ")"
  | .String s => "String(" ++ s ++ ")"
  | .Number _ => "Number"
  | .And => "And" | .Class => "Class" | .Else => "Else" | .False => "False"
  | .Fun => "Fun" | .For => "For" | .If => "If" | .Nil => "Nil" | .Or => "Or"
  | .Print => "Print" | .Return => "Return" | .Super => "Super" | .This => "This"
  | .True => "True" | .Var => "Var" | .While => "While" | .Eof => "Eof"

/-- Embedding of `RuntimeError` from `src/error.rs`. -/
inductive RuntimeError where
  | ScanError : (line : Nat) → (column : Nat) → (offset : Nat) → (message : String) → RuntimeError
  | ParseError : String → PToken → RuntimeError
  | InvalidArgumentTarget : String → RuntimeError
  | GeneralError : String → RuntimeError
  deriving DecidableEq, Repr

/-- Embedding of `Literal` from `src/parser.rs` (`Number(f64)` carried
opaquely as `Int`). -/
inductive Literal where
  | False | True | Nil
  | Number : Int → Literal
  | String : Str → Literal
  deriving DecidableEq, Repr

/-- Embedding of `Expr` from `src/parser.rs`.  Note, exactly as in the
source: `Factor`, `Term`, `Comparison` and `Equality` carry ONLY
`{operator, right}` (no left operand field), and `Logical` stores the
previously parsed expression in its `right` field and the newly parsed
operand in its `left` field. -/
inductive Expr where
  | Literal : Rlox.Literal → Expr
  | This : (keyword : PToken) → Expr
  | Variable : (name : PToken) → Expr
  | Grouping : (group : Expr) → Expr
  | Super : (keyword : PToken) → (method : PToken) → Expr
  | Get : (name : PToken) → (object : Expr) → Expr
  | Unary : (operator : PToken) → (right : Expr) → Expr
  | Factor : (operator : PToken) → (right : Expr) → Expr
  | Term : (operator : PToken) → (right : Expr) → Expr
  | Comparison : (operator : PToken) → (right : Expr) → Expr
  | Equality : (operator : PToken) → (right : Expr) → Expr
  | Logical : (right : Expr) → (operator : PToken) → (left : Expr) → Expr
  | Assign : (name : PToken) → (value : Expr) → Expr
  | Set : (object : Expr) → (name : PToken) → (value : Expr) → Expr
  deriving DecidableEq, Repr

/-- Embedding of `Stmt` from `src/parser.rs` (nested inductive, so equality
and display instances are not derived). -/
inductive Stmt where
  | Expression : Expr → Stmt
  | Block : List Stmt → Stmt

/-- Outcome of a parser computation.  `ok value position` / `err error
position` both carry the parser's cursor, because `Parser::parse` keeps using
`self.position` after a failed declaration; `panic` models `todo!()` and
out-of-bounds indexing; `outOfFuel` is exhausted fuel. -/
inductive PRes (α : Type) where
  | ok : α → Nat → PRes α
  | err : RuntimeError → Nat → PRes α
  | panic : PRes α
  | outOfFuel : PRes α
  deriving DecidableEq, Repr

namespace Parser

/-- Embedding of `Parser::peek`: reads the token at `position + 1`; past the
end it produces the `GeneralError` used by `is_at_end`/`is_match`. -/
def peek (tokens : List PToken) (position : Nat) : Except RuntimeError PToken :=
  match tokens[position + 1]? with
  | some t => .ok t
  | none => .error (RuntimeError.GeneralError "Unexpected end of token stream")

/-- Embedding of `Parser::is_at_end`: `self.peek().is_err()`. -/
def is_at_end (tokens : List PToken) (position : Nat) : Bool :=
  match peek tokens position with
  | .ok _ => false
  | .error _ => true

/-- Embedding of `Parser::advance`: increments the cursor unless at the end
(the returned token is unused at every call site that matters, so only the
cursor is returned). -/
def advance (tokens : List PToken) (position : Nat) : Nat :=
  if is_at_end tokens position then position else position + 1

/-- Embedding of `Parser::current`: `self.tokens[self.position]`, a panic
when the cursor is out of range. -/
def current (tokens : List PToken) (position : Nat) : PRes PToken :=
  match tokens[position]? with
  | some t => .ok t position
  | none => .panic

/-- Embedding of `Parser::is_match`: false at the end of the stream,
otherwise membership of the PEEKED token's value in `types`. -/
def is_match (tokens : List PToken) (position : Nat) (types : List TokenValue) : Bool :=
  match peek tokens position with
  | .error _ => false
  | .ok token => types.contains token.value

/-- Embedding of `Parser::consume`: peek, compare against the expected value,
advance on success, `ParseError` otherwise. -/
def consume (tokens : List PToken) (position : Nat) (expected : TokenValue)
    (message : String) : PRes PToken :=
  match peek tokens position with
  | .error e => .err e position
  | .ok token =>
    if token.value = expected then .ok token (advance tokens position)
    else .err (RuntimeError.ParseError message token) position

/-- Embedding of `Parser::consume_identifier`. -/
def consume_identifier (tokens : List PToken) (position : Nat)
    (message : String) : PRes PToken :=
  match peek tokens position with
  | .error e => .err e position
  | .ok token =>
    match token.value with
    | TokenValue.Identifier _ => .ok token (advance tokens position)
    | _ => .err (RuntimeError.ParseError message token) position

mutual

/-- Embedding of `Parser::declaration`: advance, then dispatch on the (new)
current token; the `Class`/`Fun`/`Var` arms are `todo!()` panics. -/
def declaration (tokens : List PToken) (fuel position : Nat) : PRes Stmt :=
  match fuel with
  | 0 => .outOfFuel
  | fuel + 1 =>
    let position := advance tokens position
    match current tokens position with
    | .ok token _ =>
      match token.value with
      | TokenValue.Class => .panic
      | TokenValue.Fun => .panic
      | TokenValue.Var => .panic
      | _ => statement tokens fuel position
    | .err e p => .err e p
    | .panic => .panic
    | .outOfFuel => .outOfFuel
termination_by structural fuel

/-- Embedding of `Parser::statement`: dispatch on the current token; the
`For`/`If`/`Print`/`Return`/`While` arms are `todo!()` panics. -/
def statement (tokens : List PToken) (fuel position : Nat) : PRes Stmt :=
  match fuel with
  | 0 => .outOfFuel
  | fuel + 1 =>
    match current tokens position with
    | .ok token _ =>
      match token.value with
      | TokenValue.For => .panic
      | TokenValue.If => .panic
      | TokenValue.Print => .panic
      | TokenValue.Return => .panic
      | TokenValue.While => .panic
      | TokenValue.LeftBrace => block tokens fuel position
      | _ => expression_statement tokens fuel position
    | .err e p => .err e p
    | .panic => .panic
    | .outOfFuel => .outOfFuel
termination_by structural fuel

/-- The `while !is_match(RightBrace)` loop of `Parser::block`. -/
def block_loop (tokens : List PToken) (fuel position : Nat) (statements : List Stmt) :
    PRes (List Stmt) :=
  match fuel with
  | 0 => .outOfFuel
  | fuel + 1 =>
    if !(is_match tokens position [TokenValue.RightBrace]) then
      match declaration tokens fuel position with
      | .ok stmt p1 => block_loop tokens fuel p1 (statements ++ [stmt])
      | .err e p => .err e p
      | .panic => .panic
      | .outOfFuel => .outOfFuel
    else .ok statements position
termination_by structural fuel

/-- Embedding of `Parser::block`. -/
def block (tokens : List PToken) (fuel position : Nat) : PRes Stmt :=
  match fuel with
  | 0 => .outOfFuel
  | fuel + 1 =>
    match block_loop tokens fuel position [] with
    | .ok statements p1 =>
      match consume tokens p1 TokenValue.RightBrace "Expected `\x7d` after block" with
      | .ok _ p2 => .ok (Stmt.Block statements) p2
      | .err e p => .err e p
      | .panic => .panic
      | .outOfFuel => .outOfFuel
    | .err e p => .err e p
    | .panic => .panic
    | .outOfFuel => .outOfFuel
termination_by structural fuel

/-- Embedding of `Parser::expression_statement`. -/
def expression_statement (tokens : List PToken) (fuel position : Nat) : PRes Stmt :=
  match fuel with
  | 0 => .outOfFuel
  | fuel + 1 =>
    match expression tokens fuel position with
    | .ok expr p1 =>
      match consume tokens p1 TokenValue.Semicolon "Expected `;` after expression" with
      | .ok _ p2 => .ok (Stmt.Expression expr) p2
      | .err e p => .err e p
      | .panic => .panic
      | .outOfFuel => .outOfFuel
    | .err e p => .err e p
    | .panic => .panic
    | .outOfFuel => .outOfFuel

/-- Embedding of `Parser::expression`. -/
def expression (tokens : List PToken) (fuel position : Nat) : PRes Expr :=
  match fuel with
  | 0 => .outOfFuel
  | fuel + 1 => assignment tokens fuel position
termination_by structural fuel

/-- Embedding of `Parser::assignment`.  Note, exactly as in the source: when
`=` is the next token the function recurses WITHOUT consuming the `=`. -/
def assignment (tokens : List PToken) (fuel position : Nat) : PRes Expr :=
  match fuel with
  | 0 => .outOfFuel
  | fuel + 1 =>
    match logic_or tokens fuel position with
    | .ok expr p1 =>
      if is_match tokens p1 [TokenValue.Equal] then
        match assignment tokens fuel p1 with
        | .ok value p2 =>
          match expr with
          | Expr.Variable name => .ok (Expr.Assign name value) p2
          | Expr.Get name object => .ok (Expr.Set object name value) p2
          | _ => .err (RuntimeError.InvalidArgumentTarget "todo") p2
        | .err e p => .err e p
        | .panic => .panic
        | .outOfFuel => .outOfFuel
      else .ok expr p1
    | .err e p => .err e p
    | .panic => .panic
    | .outOfFuel => .outOfFuel
termination_by structural fuel

/-- The `while is_match([Or])` loop of `Parser::logic_or`; the old expression
is stored as `right`, the new operand as `left`. -/
def logic_or_loop (tokens : List PToken) (fuel position : Nat) (expr : Expr) : PRes Expr :=
  match fuel with
  | 0 => .outOfFuel
  | fuel + 1 =>
    if is_match tokens position [TokenValue.Or] then
      let p1 := advance tokens position
      match current tokens p1 with
      | .ok operator _ =>
        match logic_and tokens fuel p1 with
        | .ok and p2 => logic_or_loop tokens fuel p2 (Expr.Logical expr operator and)
        | .err e p => .err e p
        | .panic => .panic
        | .outOfFuel => .outOfFuel
      | .err e p => .err e p
      | .panic => .panic
      | .outOfFuel => .outOfFuel
    else .ok expr position
termination_by structural fuel

/-- Embedding of `Parser::logic_or`. -/
def logic_or (tokens : List PToken) (fuel position : Nat) : PRes Expr :=
  match fuel with
  | 0 => .outOfFuel
  | fuel + 1 =>
    match logic_and tokens fuel position with
    | .ok expr p1 => logic_or_loop tokens fuel p1 expr
    | .err e p => .err e p
    | .panic => .panic
    | .outOfFuel => .outOfFuel
termination_by structural fuel

/-- The `while is_match([And])` loop of `Parser::logic_and`. -/
def logic_and_loop (tokens : List PToken) (fuel position : Nat) (expr : Expr) : PRes Expr :=
  match fuel with
  | 0 => .outOfFuel
  | fuel + 1 =>
    if is_match tokens position [TokenValue.And] then
      let p1 := advance tokens position
      match current tokens p1 with
      | .ok operator _ =>
        match equality tokens fuel p1 with
        | .ok eq p2 => logic_and_loop tokens fuel p2 (Expr.Logical expr operator eq)
        | .err e p => .err e p
        | .panic => .panic
        | .outOfFuel => .outOfFuel
      | .err e p => .err e p
      | .panic => .panic
      | .outOfFuel => .outOfFuel
    else .ok expr position
termination_by structural fuel

/-- Embedding of `Parser::logic_and`. -/
def logic_and (tokens : List PToken) (fuel position : Nat) : PRes Expr :=
  match fuel with
  | 0 => .outOfFuel
  | fuel + 1 =>
    match equality tokens fuel position with
    | .ok expr p1 => logic_and_loop tokens fuel p1 expr
    | .err e p => .err e p
    | .panic => .panic
    | .outOfFuel => .outOfFuel
termination_by structural fuel

/-- The fold loop of `Parser::equality`.  Exactly as in the source, the new
node `Expr.Equality operator right` DISCARDS the previous expression. -/
def equality_loop (tokens : List PToken) (fuel position : Nat) (expr : Expr) : PRes Expr :=
  match fuel with
  | 0 => .outOfFuel
  | fuel + 1 =>
    if is_match tokens position [TokenValue.BangEqual, TokenValue.EqualEqual] then
      let p1 := advance tokens position
      match current tokens p1 with
      | .ok operator _ =>
        match comparison tokens fuel p1 with
        | .ok factor p2 => equality_loop tokens fuel p2 (Expr.Equality operator factor)
        | .err e p => .err e p
        | .panic => .panic
        | .outOfFuel => .outOfFuel
      | .err e p => .err e p
      | .panic => .panic
      | .outOfFuel => .outOfFuel
    else .ok expr position
termination_by structural fuel

/-- Embedding of `Parser::equality`. -/
def equality (tokens : List PToken) (fuel position : Nat) : PRes Expr :=
  match fuel with
  | 0 => .outOfFuel
  | fuel + 1 =>
    match comparison tokens fuel position with
    | .ok expr p1 => equality_loop tokens fuel p1 expr
    | .err e p => .err e p
    | .panic => .panic
    | .outOfFuel => .outOfFuel
termination_by structural fuel

/-- The fold loop of `Parser::comparison` (discards the previous
expression, as in the source). -/
def comparison_loop (tokens : List PToken) (fuel position : Nat) (expr : Expr) : PRes Expr :=
  match fuel with
  | 0 => .outOfFuel
  | fuel + 1 =>
    if is_match tokens position
        [TokenValue.Greater, TokenValue.GreaterEqual, TokenValue.Less, TokenValue.LessEqual] then
      let p1 := advance tokens position
      match current tokens p1 with
      | .ok operator _ =>
        match term tokens fuel p1 with
        | .ok factor p2 => comparison_loop tokens fuel p2 (Expr.Comparison operator factor)
        | .err e p => .err e p
        | .panic => .panic
        | .outOfFuel => .outOfFuel
      | .err e p => .err e p
      | .panic => .panic
      | .outOfFuel => .outOfFuel
    else .ok expr position
termination_by structural fuel

/-- Embedding of `Parser::comparison`. -/
def comparison (tokens : List PToken) (fuel position : Nat) : PRes Expr :=
  match fuel with
  | 0 => .outOfFuel
  | fuel + 1 =>
    match term tokens fuel position with
    | .ok expr p1 => comparison_loop tokens fuel p1 expr
    | .err e p => .err e p
    | .panic => .panic
    | .outOfFuel => .outOfFuel
termination_by structural fuel

/-- The fold loop of `Parser::term` (discards the previous expression, as in
the source). -/
def term_loop (tokens : List PToken) (fuel position : Nat) (expr : Expr) : PRes Expr :=
  match fuel with
  | 0 => .outOfFuel
  | fuel + 1 =>
    if is_match tokens position [TokenValue.Minus, TokenValue.Plus] then
      let p1 := advance tokens position
      match current tokens p1 with
      | .ok operator _ =>
        match factor tokens fuel p1 with
        | .ok f p2 => term_loop tokens fuel p2 (Expr.Term operator f)
        | .err e p => .err e p
        | .panic => .panic
        | .outOfFuel => .outOfFuel
      | .err e p => .err e p
      | .panic => .panic
      | .outOfFuel => .outOfFuel
    else .ok expr position
termination_by structural fuel

/-- Embedding of `Parser::term`. -/
def term (tokens : List PToken) (fuel position : Nat) : PRes Expr :=
  match fuel with
  | 0 => .outOfFuel
  | fuel + 1 =>
    match factor tokens fuel position with
    | .ok expr p1 => term_loop tokens fuel p1 expr
    | .err e p => .err e p
    | .panic => .panic
    | .outOfFuel => .outOfFuel
termination_by structural fuel

/-- The fold loop of `Parser::factor` (discards the previous expression, as
in the source). -/
def factor_loop (tokens : List PToken) (fuel position : Nat) (expr : Expr) : PRes Expr :=
  match fuel with
  | 0 => .outOfFuel
  | fuel + 1 =>
    if is_match tokens position [TokenValue.Star, TokenValue.Slash] then
      let p1 := advance tokens position
      match current tokens p1 with
      | .ok operator _ =>
        match unary tokens fuel p1 with
        | .ok u p2 => factor_loop tokens fuel p2 (Expr.Factor operator u)
        | .err e p => .err e p
        | .panic => .panic
        | .outOfFuel => .outOfFuel
      | .err e p => .err e p
      | .panic => .panic
      | .outOfFuel => .outOfFuel
    else .ok expr position
termination_by structural fuel

/-- Embedding of `Parser::factor`. -/
def factor (tokens : List PToken) (fuel position : Nat) : PRes Expr :=
  match fuel with
  | 0 => .outOfFuel
  | fuel + 1 =>
    match unary tokens fuel position with
    | .ok expr p1 => factor_loop tokens fuel p1 expr
    | .err e p => .err e p
    | .panic => .panic
    | .outOfFuel => .outOfFuel
termination_by structural fuel

/-- Embedding of `Parser::unary`. -/
def unary (tokens : List PToken) (fuel position : Nat) : PRes Expr :=
  match fuel with
  | 0 => .outOfFuel
  | fuel + 1 =>
    if is_match tokens position [TokenValue.Bang, TokenValue.Minus] then
      let p1 := advance tokens position
      match current tokens p1 with
      | .ok operator _ =>
        match unary tokens fuel p1 with
        | .ok u p2 => .ok (Expr.Unary operator u) p2
        | .err e p => .err e p
        | .panic => .panic
        | .outOfFuel => .outOfFuel
      | .err e p => .err e p
      | .panic => .panic
      | .outOfFuel => .outOfFuel
    else call tokens fuel position
termination_by structural fuel

/-- The argument-collection loop inside `Parser::call`: it has NO normal
exit (the Rust `loop` only leaves via the 255-argument error or an error from
`assignment`), so an `ok` outcome is never produced. -/
def call_args_loop (tokens : List PToken) (fuel position : Nat) (arguments : List Expr) :
    PRes (List Expr) :=
  match fuel with
  | 0 => .outOfFuel
  | fuel + 1 =>
    if arguments.length > 255 then
      .err (RuntimeError.GeneralError "Too many arguments") position
    else
      match assignment tokens fuel position with
      | .ok a p1 => call_args_loop tokens fuel p1 (arguments ++ [a])
      | .err e p => .err e p
      | .panic => .panic
      | .outOfFuel => .outOfFuel
termination_by structural fuel

/-- The postfix loop of `Parser::call`: a `(`-group runs the argument loop
and then hits `todo!()` (modelled `panic`) on the loop's impossible normal
exit; a `.` builds a `Get` node. -/
def call_loop (tokens : List PToken) (fuel position : Nat) (expr : Expr) : PRes Expr :=
  match fuel with
  | 0 => .outOfFuel
  | fuel + 1 =>
    if is_match tokens position [TokenValue.LeftParen] then
      let p1 := advance tokens position
      match call_args_loop tokens fuel p1 [] with
      | .ok _ _ => .panic
      | .err e p => .err e p
      | .panic => .panic
      | .outOfFuel => .outOfFuel
    else if is_match tokens position [TokenValue.Dot] then
      match consume tokens position TokenValue.Dot "Expected `.`" with
      | .ok _ p1 =>
        match consume_identifier tokens p1 "Expected property name after `.`" with
        | .ok name p2 => call_loop tokens fuel p2 (Expr.Get name expr)
        | .err e p => .err e p
        | .panic => .panic
        | .outOfFuel => .outOfFuel
      | .err e p => .err e p
      | .panic => .panic
      | .outOfFuel => .outOfFuel
    else .ok expr position
termination_by structural fuel

/-- Embedding of `Parser::call`. -/
def call (tokens : List PToken) (fuel position : Nat) : PRes Expr :=
  match fuel with
  | 0 => .outOfFuel
  | fuel + 1 =>
    match primary tokens fuel position with
    | .ok expr p1 => call_loop tokens fuel p1 expr
    | .err e p => .err e p
    | .panic => .panic
    | .outOfFuel => .outOfFuel
termination_by structural fuel

/-- Embedding of `Parser::primary`: reads the CURRENT token (without
advancing for the literal cases). -/
def primary (tokens : List PToken) (fuel position : Nat) : PRes Expr :=
  match fuel with
  | 0 => .outOfFuel
  | fuel + 1 =>
    match current tokens position with
    | .ok token _ =>
      match token.value with
      | TokenValue.True => .ok (Expr.Literal Literal.True) position
      | TokenValue.False => .ok (Expr.Literal Literal.False) position
      | TokenValue.Nil => .ok (Expr.Literal Literal.Nil) position
      | TokenValue.This => .ok (Expr.This token) position
      | TokenValue.Number n => .ok (Expr.Literal (Literal.Number n)) position
      | TokenValue.String s => .ok (Expr.Literal (Literal.String s)) position
      | TokenValue.Identifier _ => .ok (Expr.Variable token) position
      | TokenValue.LeftParen =>
        let p1 := advance tokens position
        match expression tokens fuel p1 with
        | .ok expr p2 =>
          match consume tokens p2 TokenValue.RightParen "Expected `)` after expression" with
          | .ok _ p3 => .ok (Expr.Grouping expr) p3
          | .err e p => .err e p
          | .panic => .panic
          | .outOfFuel => .outOfFuel
        | .err e p => .err e p
        | .panic => .panic
        | .outOfFuel => .outOfFuel
      | TokenValue.Super =>
        match consume tokens position TokenValue.Dot "Expected `.` after `super`" with
        | .ok _ p1 =>
          match consume_identifier tokens p1 "Expected superclass method name" with
          | .ok method p2 => .ok (Expr.Super token method) p2
          | .err e p => .err e p
          | .panic => .panic
          | .outOfFuel => .outOfFuel
        | .err e p => .err e p
        | .panic => .panic
        | .outOfFuel => .outOfFuel
      | t =>
        .err (RuntimeError.ParseError
          ("Expected expression, found: `" ++ TokenValue.show t ++ "`") token) position
    | .err e p => .err e p
    | .panic => .panic
    | .outOfFuel => .outOfFuel
termination_by structural fuel

end

/-- The main loop of `Parser::parse`, returning the accumulated statements
AND the accumulated error batch (both are local variables in the source; the
batch is needed to state the claims about it). -/
def parse_loop (tokens : List PToken) (fuel position : Nat) (statements : List Stmt)
    (errors : List RuntimeError) : PRes (List Stmt × List RuntimeError) :=
  match fuel with
  | 0 => .outOfFuel
  | fuel + 1 =>
    match declaration tokens (fuel + 1) position with
    | .ok stmt p1 =>
      if is_at_end tokens p1 then .ok (statements ++ [stmt], errors) p1
      else parse_loop tokens fuel (advance tokens p1) (statements ++ [stmt]) errors
    | .err e p1 =>
      if is_at_end tokens p1 then .ok (statements, errors ++ [e]) p1
      else parse_loop tokens fuel (advance tokens p1) statements (errors ++ [e])
    | .panic => .panic
    | .outOfFuel => .outOfFuel
termination_by structural fuel

/-- Embedding of `Parser::parse` up to its final error check: the statement
list and the collected error batch. -/
def parse_run (tokens : List PToken) (fuel : Nat) : PRes (List Stmt × List RuntimeError) :=
  if tokens.isEmpty then .ok ([], []) 0
  else parse_loop tokens fuel 0 [] []

/-- Embedding of `Parser::parse`: `Ok(statements)` when no errors were
collected, otherwise `Err(RuntimeError::general_error("Errors occurred"))` —
the collected batch itself is discarded. -/
def parse (tokens : List PToken) (fuel : Nat) : PRes (List Stmt) :=
  match parse_run tokens fuel with
  | .ok (statements, errors) p =>
    if errors.isEmpty then .ok statements p
    else .err (RuntimeError.GeneralError "Errors occurred") p
  | .err e p => .err e p
  | .panic => .panic
  | .outOfFuel => .outOfFuel

end Parser

/-! ## Concrete inputs and token predicates used by the claims -/

/-- The token types emitted with a one-character lexeme equal to the scanned
character. -/
def punctList : List TokenType :=
  [.LeftParen, .RightParen, .LeftBrace, .RightBrace, .Comma, .Dot, .Minus,
   .Plus, .Semicolon, .Star, .Slash, .Bang, .Equal, .Greater, .Less]

/-- The lexeme such a token carries. -/
def punctLexeme : TokenType → String
  | .LeftParen => "(" | .RightParen => ")" | .LeftBrace => "\x7b"
  | .RightBrace => "\x7d" | .Comma => "," | .Dot => "." | .Minus => "-"
  | .Plus => "+" | .Semicolon => ";" | .Star => "*" | .Slash => "/"
  | .Bang => "!" | .Equal => "=" | .Greater => ">" | .Less => "<"
  | _ => ""

/-- Well-formedness of a token emitted by `scan_token`: it is never `Eof`,
and the single-character punctuation kinds carry exactly their character as
lexeme. -/
def tokOK (t : Token) : Prop :=
  t.token_type ≠ .Eof ∧
  (t.token_type ∈ punctList → t.lexeme = punctLexeme t.token_type)

/-- Token sequence of the statement `a = 1;` as the parser sees it (one
leading token, skipped by `declaration`, then identifier, `=`, number,
semicolon, `Eof`). -/
def assignToks : List PToken :=
  [⟨.Semicolon⟩, ⟨.Identifier "a"⟩, ⟨.Equal⟩, ⟨.Number 1⟩, ⟨.Semicolon⟩, ⟨.Eof⟩]

/-- Non-termination of `Parser::parse` on a given token list, expressed in
the fuel embedding: every amount of fuel is exhausted. -/
def Parser.divergesOn (tokens : List PToken) : Prop :=
  ∀ fuel, Parser.parse tokens fuel = .outOfFuel

/-- Parser tokens of a program with two malformed statements separated by a
valid expression statement, ending in `Eof` (the leading token of each
declaration is skipped by `Parser::declaration`). -/
def c1_tokens : List PToken :=
  [⟨.Star⟩, ⟨.Star⟩, ⟨.Semicolon⟩, ⟨.Number 1⟩, ⟨.Semicolon⟩, ⟨.Star⟩, ⟨.Semicolon⟩, ⟨.Eof⟩]

/-- The error batch `Parser::parse` collects on `c1_tokens`: the two genuine
syntax errors PLUS one for the final `Eof`, which is itself parsed as a
declaration. -/
def c1_batch : List RuntimeError :=
  [.ParseError "Expected expression, found: `Star`" ⟨.Star⟩,
   .ParseError "Expected expression, found: `Semicolon`" ⟨.Semicolon⟩,
   .ParseError "Expected expression, found: `Eof`" ⟨.Eof⟩]

/-- Parser tokens of the expression `1 + 2 * 3`. -/
def c3_tokens : List PToken :=
  [⟨.Number 1⟩, ⟨.Plus⟩, ⟨.Number 2⟩, ⟨.Star⟩, ⟨.Number 3⟩, ⟨.Eof⟩]

/-- The sixteen keyword spellings recognised by `Scanner::parse_identifier`. -/
def keywordStrings : List String :=
  ["and", "class", "else", "false", "for", "fun", "if", "nil", "or", "print",
   "return", "super", "this", "true", "var", "while"]

end Rlox

namespace Rlox

namespace Scanner

/-- An index at which `getElem?` succeeds is in range. -/
theorem getElem?_lt {l : List Char} {i : Nat} {c : Char} (h : l[i]? = some c) :
    i < l.length := by
  by_contra hi
  rw [List.getElem?_eq_none (Nat.le_of_not_lt hi)] at h
  exact Option.noConfusion h

/-- The comment-skipping loop strictly advances the cursor and stays in
bounds. -/
theorem skip_comment_loop_progress :
    ∀ fuel pos pos2, skip_comment_loop chars fuel pos = .ok pos2 →
      pos < pos2 ∧ pos2 ≤ chars.length := by
  intro fuel
  induction fuel with
  | zero => intro pos pos2 h; exact absurd h (by simp [skip_comment_loop])
  | succ fuel ih =>
    intro pos pos2 h
    unfold skip_comment_loop at h
    cases hc : chars[pos]? with
    | none => simp [advance, hc] at h
    | some c =>
      have hlen := getElem?_lt hc
      simp only [advance, hc] at h
      split at h
      · simp only [ScanRes.ok.injEq] at h
        omega
      · have := ih (pos + 1) pos2 h
        omega

/-- The string-literal loop strictly advances the cursor and stays in
bounds. -/
theorem parse_string_loop_progress :
    ∀ fuel pos line lex lex2 pos2 line2,
      parse_string_loop chars fuel pos line lex = .ok (lex2, pos2, line2) →
      pos < pos2 ∧ pos2 ≤ chars.length := by
  intro fuel
  induction fuel with
  | zero => intro pos line lex lex2 pos2 line2 h; exact absurd h (by simp [parse_string_loop])
  | succ fuel ih =>
    intro pos line lex lex2 pos2 line2 h
    unfold parse_string_loop at h
    cases hc : chars[pos]? with
    | none => simp [advance, hc] at h
    | some c =>
      have hlen := getElem?_lt hc
      simp only [advance, hc] at h
      split at h
      · exact absurd h (by simp)
      · split at h
        · simp only [ScanRes.ok.injEq, Prod.mk.injEq] at h
          omega
        · have := ih (pos + 1) _ _ _ _ _ h
          omega

/-- The digit/identifier run loop never moves the cursor backwards past its
entry point and stays in bounds. -/
theorem scan_run_loop_progress :
    ∀ fuel pos lex lex2 pos2, scan_run_loop chars keep fuel pos lex = .ok (lex2, pos2) →
      pos ≤ pos2 ∧ pos2 ≤ chars.length := by
  intro fuel
  induction fuel with
  | zero => intro pos lex lex2 pos2 h; exact absurd h (by simp [scan_run_loop])
  | succ fuel ih =>
    intro pos lex lex2 pos2 h
    unfold scan_run_loop at h
    cases hc : chars[pos]? with
    | none => simp [advance, hc] at h
    | some c =>
      have hlen := getElem?_lt hc
      simp only [advance, hc] at h
      split at h
      · simp only [ScanRes.ok.injEq, Prod.mk.injEq] at h
        omega
      · split at h
        · cases hb : chars[pos + 1]? with
          | none => simp [back, hb] at h
          | some d =>
            simp only [back, hb, ScanRes.ok.injEq, Prod.mk.injEq] at h
            omega
        · have := ih (pos + 1) _ _ _ h
          omega

end Scanner

end Rlox

namespace Rlox

namespace Scanner

/-- Shape of a successful `parse_string` result. -/
theorem parse_string_spec {chars : List Char} {fuel pos line : Nat} {o pos1 line1}
    (h : parse_string chars fuel pos line = .ok (o, pos1, line1)) :
    pos < pos1 ∧ pos1 ≤ chars.length ∧
      ∃ lex, o = some ⟨TokenType.String, lex, some (TokenLiteral.String lex), line1⟩ := by
  unfold parse_string at h
  cases hs : parse_string_loop chars fuel pos line "" with
  | ok v =>
    obtain ⟨lex, pos2, line2⟩ := v
    have := parse_string_loop_progress fuel pos line "" lex pos2 line2 hs
    simp only [hs, ScanRes.ok.injEq, Prod.mk.injEq] at h
    obtain ⟨ho, hp, hl⟩ := h
    subst hp; subst hl
    exact ⟨this.1, this.2, lex, ho.symm⟩
  | err m l p => simp [hs] at h
  | panic => simp [hs] at h
  | outOfFuel => simp [hs] at h

/-- Shape of a successful `parse_number` result.  The hypothesis that the
character before the entry cursor is in the digit class reflects the call
site in `scan_token`; it makes the first loop iteration push, so the cursor
strictly advances past the digit. -/
theorem parse_number_spec {chars : List Char} {fuel pos line : Nat} {c : Char} {o pos1 line1}
    (hc : chars[pos - 1]? = some c) (hdig : isDigitChar c = true) (hpos : 0 < pos)
    (h : parse_number chars fuel pos line = .ok (o, pos1, line1)) :
    pos - 1 < pos1 ∧ pos1 ≤ chars.length ∧
      ∃ lex n, o = some ⟨TokenType.Number, lex, some (TokenLiteral.Number n), line1⟩ := by
  unfold parse_number at h
  cases hb : chars[pos]? with
  | none => simp [back, hb] at h
  | some d =>
    have hplen := getElem?_lt hb
    simp only [back, hb] at h
    cases hs : scan_run_loop chars isDigitChar fuel (pos - 1) "" with
    | ok v =>
      obtain ⟨lex, pos2⟩ := v
      have hstrict : pos ≤ pos2 := by
        rcases fuel with _ | fuel
        · simp [scan_run_loop] at hs
        · unfold scan_run_loop at hs
          simp only [advance, hc] at hs
          split at hs
          · simp only [ScanRes.ok.injEq, Prod.mk.injEq] at hs
            omega
          · rw [hdig] at hs
            simp only [Bool.not_true] at hs
            have := scan_run_loop_progress fuel (pos - 1 + 1) _ _ _ hs
            omega
      have hbound := scan_run_loop_progress fuel (pos - 1) "" lex pos2 hs
      cases hn : parseI64 lex with
      | some n =>
        simp only [hs, hn, ScanRes.ok.injEq, Prod.mk.injEq] at h
        obtain ⟨ho, hp, hl⟩ := h
        subst hp; subst hl
        exact ⟨by omega, hbound.2, lex, n, ho.symm⟩
      | none => simp [hs, hn] at h
    | err m l p => simp [hs] at h
    | panic => simp [hs] at h
    | outOfFuel => simp [hs] at h

/-- The keyword dispatch never yields `Eof` nor a punctuation kind, and
keeps the original lexeme. -/
theorem keyword_token_spec (lex : String) (line : Nat) :
    (keyword_token lex line).token_type ≠ TokenType.Eof ∧
    (keyword_token lex line).token_type ∉ punctList := by
  unfold keyword_token
  split <;> exact ⟨by simp, by simp [punctList]⟩

/-- Shape of a successful `parse_identifier` result. -/
theorem parse_identifier_spec {chars : List Char} {fuel pos line : Nat} {c : Char} {o pos1 line1}
    (hc : chars[pos - 1]? = some c) (halpha : isAlphaChar c = true) (hpos : 0 < pos)
    (h : parse_identifier chars fuel pos line = .ok (o, pos1, line1)) :
    pos - 1 < pos1 ∧ pos1 ≤ chars.length ∧
      ∃ lex, o = some (keyword_token lex line1) := by
  unfold parse_identifier at h
  cases hb : chars[pos]? with
  | none => simp [back, hb] at h
  | some d =>
    have hplen := getElem?_lt hb
    simp only [back, hb] at h
    cases hs : scan_run_loop chars isAlphaChar fuel (pos - 1) "" with
    | ok v =>
      obtain ⟨lex, pos2⟩ := v
      have hstrict : pos ≤ pos2 := by
        rcases fuel with _ | fuel
        · simp [scan_run_loop] at hs
        · unfold scan_run_loop at hs
          simp only [advance, hc] at hs
          split at hs
          · simp only [ScanRes.ok.injEq, Prod.mk.injEq] at hs
            omega
          · rw [halpha] at hs
            simp only [Bool.not_true] at hs
            have := scan_run_loop_progress fuel (pos - 1 + 1) _ _ _ hs
            omega
      have hbound := scan_run_loop_progress fuel (pos - 1) "" lex pos2 hs
      simp only [hs, ScanRes.ok.injEq, Prod.mk.injEq] at h
      obtain ⟨ho, hp, hl⟩ := h
      subst hp; subst hl
      exact ⟨by omega, hbound.2, lex, ho.symm⟩
    | err m l p => simp [hs] at h
    | panic => simp [hs] at h
    | outOfFuel => simp [hs] at h

end Scanner

end Rlox

namespace Rlox

namespace Scanner

/-- Specification of `skip_inline_comment`: on success the cursor does not
move backwards and stays in bounds. -/
theorem skip_inline_comment_spec {chars : List Char} {fuel pos pos2 : Nat}
    (h : skip_inline_comment chars fuel pos = .ok pos2) :
    pos ≤ pos2 ∧ pos2 ≤ chars.length := by
  unfold skip_inline_comment at h
  split at h
  · next hend =>
    simp only [ScanRes.ok.injEq] at h
    subst h
    simp only [is_at_end, beq_iff_eq] at hend
    omega
  · have := skip_comment_loop_progress fuel pos pos2 h
    omega

/-- Combined specification of a successful `scan_token` step: the cursor
strictly advances and stays in bounds, and any emitted token is well-formed
(never `Eof`; punctuation kinds carry their character as lexeme). -/
theorem scan_token_spec {chars : List Char} {fuel pos line : Nat} {o : Option Token}
    {pos1 line1 : Nat} (h : scan_token chars fuel pos line = .ok (o, pos1, line1)) :
    (pos < pos1 ∧ pos1 ≤ chars.length) ∧ ∀ t, o = some t → tokOK t := by
  unfold scan_token at h
  cases hc : chars[pos]? with
  | none => simp [advance, hc] at h
  | some c =>
    have hlen := getElem?_lt hc
    simp only [advance, hc] at h
    split at h
    case h_1 =>
      simp only [ScanRes.ok.injEq, Prod.mk.injEq] at h
      obtain ⟨ho, hp, hl⟩ := h
      subst ho; subst hp
      exact ⟨⟨by omega, by omega⟩, by rintro t ht; exact absurd ht (by simp)⟩
    case h_2 =>
      simp only [ScanRes.ok.injEq, Prod.mk.injEq] at h
      obtain ⟨ho, hp, hl⟩ := h
      subst ho; subst hp
      exact ⟨⟨by omega, by omega⟩, by rintro t ht; exact absurd ht (by simp)⟩
    case h_3 =>
      simp only [ScanRes.ok.injEq, Prod.mk.injEq] at h
      obtain ⟨ho, hp, hl⟩ := h
      subst ho; subst hp
      exact ⟨⟨by omega, by omega⟩, by rintro t ht; exact absurd ht (by simp)⟩
    case h_4 =>
      simp only [ScanRes.ok.injEq, Prod.mk.injEq] at h
      obtain ⟨ho, hp, hl⟩ := h
      subst ho; subst hp
      exact ⟨⟨by omega, by omega⟩, by rintro t ht; exact absurd ht (by simp)⟩
    case h_5 =>
      simp only [ScanRes.ok.injEq, Prod.mk.injEq] at h
      obtain ⟨ho, hp, hl⟩ := h
      subst ho; subst hp
      refine ⟨⟨by omega, by omega⟩, ?_⟩
      rintro t ht
      injection ht with ht
      subst ht
      exact ⟨by simp [single], fun _ => rfl⟩
    case h_6 =>
      simp only [ScanRes.ok.injEq, Prod.mk.injEq] at h
      obtain ⟨ho, hp, hl⟩ := h
      subst ho; subst hp
      refine ⟨⟨by omega, by omega⟩, ?_⟩
      rintro t ht
      injection ht with ht
      subst ht
      exact ⟨by simp [single], fun _ => rfl⟩
    case h_7 =>
      simp only [ScanRes.ok.injEq, Prod.mk.injEq] at h
      obtain ⟨ho, hp, hl⟩ := h
      subst ho; subst hp
      refine ⟨⟨by omega, by omega⟩, ?_⟩
      rintro t ht
      injection ht with ht
      subst ht
      exact ⟨by simp [single], fun _ => rfl⟩
    case h_8 =>
      simp only [ScanRes.ok.injEq, Prod.mk.injEq] at h
      obtain ⟨ho, hp, hl⟩ := h
      subst ho; subst hp
      refine ⟨⟨by omega, by omega⟩, ?_⟩
      rintro t ht
      injection ht with ht
      subst ht
      exact ⟨by simp [single], fun _ => rfl⟩
    case h_9 =>
      simp only [ScanRes.ok.injEq, Prod.mk.injEq] at h
      obtain ⟨ho, hp, hl⟩ := h
      subst ho; subst hp
      refine ⟨⟨by omega, by omega⟩, ?_⟩
      rintro t ht
      injection ht with ht
      subst ht
      exact ⟨by simp [single], fun _ => rfl⟩
    case h_10 =>
      simp only [ScanRes.ok.injEq, Prod.mk.injEq] at h
      obtain ⟨ho, hp, hl⟩ := h
      subst ho; subst hp
      refine ⟨⟨by omega, by omega⟩, ?_⟩
      rintro t ht
      injection ht with ht
      subst ht
      exact ⟨by simp [single], fun _ => rfl⟩
    case h_11 =>
      simp only [ScanRes.ok.injEq, Prod.mk.injEq] at h
      obtain ⟨ho, hp, hl⟩ := h
      subst ho; subst hp
      refine ⟨⟨by omega, by omega⟩, ?_⟩
      rintro t ht
      injection ht with ht
      subst ht
      exact ⟨by simp [single], fun _ => rfl⟩
    case h_12 =>
      simp only [ScanRes.ok.injEq, Prod.mk.injEq] at h
      obtain ⟨ho, hp, hl⟩ := h
      subst ho; subst hp
      refine ⟨⟨by omega, by omega⟩, ?_⟩
      rintro t ht
      injection ht with ht
      subst ht
      exact ⟨by simp [single], fun _ => rfl⟩
    case h_13 =>
      simp only [ScanRes.ok.injEq, Prod.mk.injEq] at h
      obtain ⟨ho, hp, hl⟩ := h
      subst ho; subst hp
      refine ⟨⟨by omega, by omega⟩, ?_⟩
      rintro t ht
      injection ht with ht
      subst ht
      exact ⟨by simp [single], fun _ => rfl⟩
    case h_14 =>
      simp only [ScanRes.ok.injEq, Prod.mk.injEq] at h
      obtain ⟨ho, hp, hl⟩ := h
      subst ho; subst hp
      refine ⟨⟨by omega, by omega⟩, ?_⟩
      rintro t ht
      injection ht with ht
      subst ht
      exact ⟨by simp [single], fun _ => rfl⟩
    case h_15 =>
      split at h
      · cases hc2 : chars[pos + 1]? with
        | none => simp [advance, hc2] at h
        | some d =>
          have hlen2 := getElem?_lt hc2
          simp only [advance, hc2, ScanRes.ok.injEq, Prod.mk.injEq] at h
          obtain ⟨ho, hp, hl⟩ := h
          subst ho; subst hp
          refine ⟨⟨by omega, by omega⟩, ?_⟩
          rintro t ht
          injection ht with ht
          subst ht
          exact ⟨by simp [single], by intro hmem; simp [single, punctList] at hmem⟩
      ·
        simp only [ScanRes.ok.injEq, Prod.mk.injEq] at h
        obtain ⟨ho, hp, hl⟩ := h
        subst ho; subst hp
        refine ⟨⟨by omega, by omega⟩, ?_⟩
        rintro t ht
        injection ht with ht
        subst ht
        exact ⟨by simp [single], fun _ => rfl⟩
    case h_16 =>
      split at h
      · cases hc2 : chars[pos + 1]? with
        | none => simp [advance, hc2] at h
        | some d =>
          have hlen2 := getElem?_lt hc2
          simp only [advance, hc2, ScanRes.ok.injEq, Prod.mk.injEq] at h
          obtain ⟨ho, hp, hl⟩ := h
          subst ho; subst hp
          refine ⟨⟨by omega, by omega⟩, ?_⟩
          rintro t ht
          injection ht with ht
          subst ht
          exact ⟨by simp [single], by intro hmem; simp [single, punctList] at hmem⟩
      ·
        simp only [ScanRes.ok.injEq, Prod.mk.injEq] at h
        obtain ⟨ho, hp, hl⟩ := h
        subst ho; subst hp
        refine ⟨⟨by omega, by omega⟩, ?_⟩
        rintro t ht
        injection ht with ht
        subst ht
        exact ⟨by simp [single], fun _ => rfl⟩
    case h_17 =>
      split at h
      · cases hc2 : chars[pos + 1]? with
        | none => simp [advance, hc2] at h
        | some d =>
          have hlen2 := getElem?_lt hc2
          simp only [advance, hc2, ScanRes.ok.injEq, Prod.mk.injEq] at h
          obtain ⟨ho, hp, hl⟩ := h
          subst ho; subst hp
          refine ⟨⟨by omega, by omega⟩, ?_⟩
          rintro t ht
          injection ht with ht
          subst ht
          exact ⟨by simp [single], by intro hmem; simp [single, punctList] at hmem⟩
      ·
        simp only [ScanRes.ok.injEq, Prod.mk.injEq] at h
        obtain ⟨ho, hp, hl⟩ := h
        subst ho; subst hp
        refine ⟨⟨by omega, by omega⟩, ?_⟩
        rintro t ht
        injection ht with ht
        subst ht
        exact ⟨by simp [single], fun _ => rfl⟩
    case h_18 =>
      split at h
      · cases hc2 : chars[pos + 1]? with
        | none => simp [advance, hc2] at h
        | some d =>
          have hlen2 := getElem?_lt hc2
          simp only [advance, hc2, ScanRes.ok.injEq, Prod.mk.injEq] at h
          obtain ⟨ho, hp, hl⟩ := h
          subst ho; subst hp
          refine ⟨⟨by omega, by omega⟩, ?_⟩
          rintro t ht
          injection ht with ht
          subst ht
          exact ⟨by simp [single], by intro hmem; simp [single, punctList] at hmem⟩
      ·
        simp only [ScanRes.ok.injEq, Prod.mk.injEq] at h
        obtain ⟨ho, hp, hl⟩ := h
        subst ho; subst hp
        refine ⟨⟨by omega, by omega⟩, ?_⟩
        rintro t ht
        injection ht with ht
        subst ht
        exact ⟨by simp [single], fun _ => rfl⟩
    case h_19 =>
      split at h
      · cases hsk : skip_inline_comment chars fuel (pos + 1) with
        | ok pos2 =>
          have := skip_inline_comment_spec hsk
          simp only [hsk, ScanRes.ok.injEq, Prod.mk.injEq] at h
          obtain ⟨ho, hp, hl⟩ := h
          subst ho; subst hp
          exact ⟨⟨by omega, by omega⟩, by rintro t ht; exact absurd ht (by simp)⟩
        | err m l p => simp [hsk] at h
        | panic => simp [hsk] at h
        | outOfFuel => simp [hsk] at h
      ·
        simp only [ScanRes.ok.injEq, Prod.mk.injEq] at h
        obtain ⟨ho, hp, hl⟩ := h
        subst ho; subst hp
        refine ⟨⟨by omega, by omega⟩, ?_⟩
        rintro t ht
        injection ht with ht
        subst ht
        exact ⟨by simp [single], fun _ => rfl⟩
    case h_20 =>
      obtain ⟨h1, h2, lex, ho⟩ := parse_string_spec h
      subst ho
      refine ⟨⟨by omega, by omega⟩, ?_⟩
      rintro t ht
      injection ht with ht
      subst ht
      exact ⟨by simp, by intro hmem; simp [punctList] at hmem⟩
    case h_21 =>
      split at h
      · next hdig =>
        obtain ⟨h1, h2, lex, n, ho⟩ := parse_number_spec hc hdig (Nat.succ_pos pos) h
        subst ho
        refine ⟨⟨by omega, by omega⟩, ?_⟩
        rintro t ht
        injection ht with ht
        subst ht
        exact ⟨by simp, by intro hmem; simp [punctList] at hmem⟩
      · split at h
        · next halpha =>
          obtain ⟨h1, h2, lex, ho⟩ := parse_identifier_spec hc halpha (Nat.succ_pos pos) h
          subst ho
          refine ⟨⟨by omega, by omega⟩, ?_⟩
          rintro t ht
          injection ht with ht
          subst ht
          have := keyword_token_spec lex line1
          exact ⟨this.1, fun hmem => absurd hmem this.2⟩
        · exact absurd h (by simp)

end Scanner

end Rlox

namespace Rlox

namespace Scanner

/-- Fuel sufficiency for the comment loop. -/
theorem skip_comment_loop_oof {chars : List Char} :
    ∀ fuel pos, pos ≤ chars.length → chars.length < fuel + pos →
      skip_comment_loop chars fuel pos ≠ .outOfFuel := by
  intro fuel
  induction fuel with
  | zero => intro pos h1 h2; omega
  | succ fuel ih =>
    intro pos h1 h2
    unfold skip_comment_loop
    cases hc : chars[pos]? with
    | none => simp [advance, hc]
    | some c =>
      have hlen := getElem?_lt hc
      simp only [advance, hc]
      split
      · simp
      · exact ih (pos + 1) (by omega) (by omega)

/-- Fuel sufficiency for `skip_inline_comment`. -/
theorem skip_inline_comment_oof {chars : List Char} {fuel pos : Nat}
    (h1 : pos ≤ chars.length) (h2 : chars.length < fuel + pos) :
    skip_inline_comment chars fuel pos ≠ .outOfFuel := by
  unfold skip_inline_comment
  split
  · simp
  · exact skip_comment_loop_oof fuel pos h1 h2

/-- Fuel sufficiency for the string-literal loop. -/
theorem parse_string_loop_oof {chars : List Char} :
    ∀ fuel pos line lex, pos ≤ chars.length → chars.length < fuel + pos →
      parse_string_loop chars fuel pos line lex ≠ .outOfFuel := by
  intro fuel
  induction fuel with
  | zero => intro pos line lex h1 h2; omega
  | succ fuel ih =>
    intro pos line lex h1 h2
    unfold parse_string_loop
    cases hc : chars[pos]? with
    | none => simp [advance, hc]
    | some c =>
      have hlen := getElem?_lt hc
      simp only [advance, hc]
      split
      · simp
      · split
        · simp
        · exact ih (pos + 1) _ _ (by omega) (by omega)

/-- Fuel sufficiency for `parse_string`. -/
theorem parse_string_oof {chars : List Char} {fuel pos line : Nat}
    (h1 : pos ≤ chars.length) (h2 : chars.length < fuel + pos) :
    parse_string chars fuel pos line ≠ .outOfFuel := by
  unfold parse_string
  cases hr : parse_string_loop chars fuel pos line "" with
  | ok v => obtain ⟨a, b, c⟩ := v; simp [hr]
  | err m l p => simp [hr]
  | panic => simp [hr]
  | outOfFuel => exact absurd hr (parse_string_loop_oof fuel pos line "" h1 h2)

/-- Fuel sufficiency for the digit/identifier run loop. -/
theorem scan_run_loop_oof {chars : List Char} {keep : Char → Bool} :
    ∀ fuel pos lex, pos ≤ chars.length → chars.length < fuel + pos →
      scan_run_loop chars keep fuel pos lex ≠ .outOfFuel := by
  intro fuel
  induction fuel with
  | zero => intro pos lex h1 h2; omega
  | succ fuel ih =>
    intro pos lex h1 h2
    unfold scan_run_loop
    cases hc : chars[pos]? with
    | none => simp [advance, hc]
    | some c =>
      have hlen := getElem?_lt hc
      simp only [advance, hc]
      split
      · simp
      · split
        · cases hb : chars[pos + 1]? <;> simp [back, hb]
        · exact ih (pos + 1) _ (by omega) (by omega)

/-- Fuel sufficiency for `parse_number`. -/
theorem parse_number_oof {chars : List Char} {fuel pos line : Nat}
    (h1 : pos - 1 ≤ chars.length) (h2 : chars.length < fuel + (pos - 1)) :
    parse_number chars fuel pos line ≠ .outOfFuel := by
  unfold parse_number
  cases hb : chars[pos]? with
  | none => simp [back, hb]
  | some d =>
    simp only [back, hb]
    cases hr : scan_run_loop chars isDigitChar fuel (pos - 1) "" with
    | ok v =>
      obtain ⟨lex, p2⟩ := v
      cases hn : parseI64 lex <;> simp [hr, hn]
    | err m l p => simp [hr]
    | panic => simp [hr]
    | outOfFuel => exact absurd hr (scan_run_loop_oof fuel (pos - 1) "" h1 h2)

/-- Fuel sufficiency for `parse_identifier`. -/
theorem parse_identifier_oof {chars : List Char} {fuel pos line : Nat}
    (h1 : pos - 1 ≤ chars.length) (h2 : chars.length < fuel + (pos - 1)) :
    parse_identifier chars fuel pos line ≠ .outOfFuel := by
  unfold parse_identifier
  cases hb : chars[pos]? with
  | none => simp [back, hb]
  | some d =>
    simp only [back, hb]
    cases hr : scan_run_loop chars isAlphaChar fuel (pos - 1) "" with
    | ok v => obtain ⟨lex, p2⟩ := v; simp [hr]
    | err m l p => simp [hr]
    | panic => simp [hr]
    | outOfFuel => exact absurd hr (scan_run_loop_oof fuel (pos - 1) "" h1 h2)

/-- Fuel sufficiency for one `scan_token` step. -/
theorem scan_token_oof {chars : List Char} {fuel pos line : Nat}
    (h2 : chars.length < fuel + pos) :
    scan_token chars fuel pos line ≠ .outOfFuel := by
  unfold scan_token
  cases hc : chars[pos]? with
  | none => simp [advance, hc]
  | some c =>
    have hlen := getElem?_lt hc
    simp only [advance, hc]
    split
    case h_15 | h_16 | h_17 | h_18 =>
      split
      · cases hc2 : chars[pos + 1]? <;> simp [advance, hc2]
      · simp
    case h_19 =>
      split
      · cases hsk : skip_inline_comment chars fuel (pos + 1) with
        | ok p2 => simp [hsk]
        | err m l p => simp [hsk]
        | panic => simp [hsk]
        | outOfFuel =>
          exact absurd hsk (skip_inline_comment_oof (by omega) (by omega))
      · simp
    case h_20 => exact parse_string_oof (by omega) (by omega)
    case h_21 =>
      split
      · exact parse_number_oof (by omega) (by omega)
      · split
        · exact parse_identifier_oof (by omega) (by omega)
        · simp
    all_goals simp

/-- Fuel sufficiency for the scanning loop: `length + 1 - pos` steps of fuel
always suffice, because every `scan_token` step strictly advances. -/
theorem scan_tokens_loop_oof {chars : List Char} :
    ∀ fuel pos line acc, pos ≤ chars.length → chars.length < fuel + pos →
      scan_tokens_loop chars fuel pos line acc ≠ .outOfFuel := by
  intro fuel
  induction fuel with
  | zero => intro pos line acc h1 h2; omega
  | succ fuel ih =>
    intro pos line acc h1 h2
    unfold scan_tokens_loop
    split
    · simp
    · cases hst : scan_token chars (fuel + 1) pos line with
      | ok v =>
        obtain ⟨o, pos1, line1⟩ := v
        have hspec := (scan_token_spec hst).1
        cases o with
        | some t => exact ih pos1 line1 (acc ++ [t]) (by omega) (by omega)
        | none => exact ih pos1 line1 acc (by omega) (by omega)
      | err m l p => simp [hst]
      | panic => simp [hst]
      | outOfFuel => exact absurd hst (scan_token_oof (by omega))

/-- `scan_tokens` never exhausts its fuel: the scanner terminates on every
input. -/
theorem scan_tokens_total (source : String) : scan_tokens source ≠ .outOfFuel :=
  scan_tokens_loop_oof (source.data.length + 1) 0 1 []
    (Nat.zero_le _) (by omega)

/-- Structure of a successful scan: the result is the accumulator followed
by well-formed tokens and a final `Eof`. -/
theorem scan_tokens_loop_structure {chars : List Char} :
    ∀ fuel pos line acc toks, scan_tokens_loop chars fuel pos line acc = .ok toks →
      ∃ mid lineF, toks = acc ++ mid ++ [⟨TokenType.Eof, "", none, lineF⟩] ∧
        ∀ t ∈ mid, tokOK t := by
  intro fuel
  induction fuel with
  | zero => intro pos line acc toks h; exact absurd h (by simp [scan_tokens_loop])
  | succ fuel ih =>
    intro pos line acc toks h
    unfold scan_tokens_loop at h
    split at h
    · simp only [ScanRes.ok.injEq] at h
      exact ⟨[], line, by simp [h.symm], by simp⟩
    · cases hst : scan_token chars (fuel + 1) pos line with
      | ok v =>
        obtain ⟨o, pos1, line1⟩ := v
        rw [hst] at h
        cases o with
        | some t =>
          obtain ⟨mid, lineF, htoks, hmid⟩ := ih pos1 line1 (acc ++ [t]) toks h
          refine ⟨t :: mid, lineF, by simp [htoks], ?_⟩
          intro u hu
          rcases List.mem_cons.mp hu with rfl | hu
          · exact (scan_token_spec hst).2 u rfl
          · exact hmid u hu
        | none => exact ih pos1 line1 acc toks h
      | err m l p => rw [hst] at h; exact absurd h (by simp)
      | panic => rw [hst] at h; exact absurd h (by simp)
      | outOfFuel => rw [hst] at h; exact absurd h (by simp)

end Scanner

end Rlox

namespace Rlox

namespace Parser

/-- With at least nine units of fuel, the precedence chain below `assignment`
parses the variable `a` WITHOUT consuming any token. -/
theorem logic_or_assignToks (f : Nat) :
    logic_or assignToks (f + 9) 1 = .ok (Expr.Variable ⟨.Identifier "a"⟩) 1 := by
  simp [logic_or, logic_and, equality, comparison, term, factor, unary, call,
    primary, logic_or_loop, logic_and_loop, equality_loop, comparison_loop,
    term_loop, factor_loop, call_loop, is_match, peek, current, advance,
    is_at_end, assignToks]

/-- `assignment` runs out of any amount of fuel on `a = 1;`: after parsing
`a` it sees the `=` via `is_match` and recurses without consuming it. -/
theorem assignment_assignToks : ∀ f, assignment assignToks f 1 = .outOfFuel := by
  intro f
  induction f using Nat.strong_induction_on with
  | _ f ih =>
    by_cases hf : f ≤ 9
    · interval_cases f <;> decide
    · obtain ⟨g, rfl⟩ : ∃ g, f = g + 10 := ⟨f - 10, by omega⟩
      show assignment assignToks (g + 9 + 1) 1 = .outOfFuel
      unfold assignment
      rw [logic_or_assignToks g]
      have hm : is_match assignToks 1 [TokenValue.Equal] = true := by decide
      simp only [hm, if_true]
      rw [ih (g + 9) (by omega)]

/-- The divergence propagates through `expression`. -/
theorem expression_assignToks : ∀ f, expression assignToks f 1 = .outOfFuel := by
  intro f
  cases f with
  | zero => rfl
  | succ f => simp only [expression]; exact assignment_assignToks f

/-- The divergence propagates through `expression_statement`. -/
theorem expression_statement_assignToks :
    ∀ f, expression_statement assignToks f 1 = .outOfFuel := by
  intro f
  cases f with
  | zero => rfl
  | succ f => simp only [expression_statement, expression_assignToks f]

/-- The divergence propagates through `statement`. -/
theorem statement_assignToks : ∀ f, statement assignToks f 1 = .outOfFuel := by
  intro f
  cases f with
  | zero => rfl
  | succ f =>
    have hcur : current assignToks 1 = .ok ⟨TokenValue.Identifier "a"⟩ 1 := by decide
    simp only [statement, hcur, expression_statement_assignToks f]

/-- The divergence propagates through `declaration`. -/
theorem declaration_assignToks : ∀ f, declaration assignToks f 0 = .outOfFuel := by
  intro f
  cases f with
  | zero => rfl
  | succ f =>
    have hadv : advance assignToks 0 = 1 := by decide
    have hcur : current assignToks 1 = .ok ⟨TokenValue.Identifier "a"⟩ 1 := by decide
    simp only [declaration, hadv, hcur, statement_assignToks f]

/-- The divergence propagates through the parse loop. -/
theorem parse_loop_assignToks : ∀ f, parse_loop assignToks f 0 [] [] = .outOfFuel := by
  intro f
  cases f with
  | zero => rfl
  | succ f => simp only [parse_loop, declaration_assignToks (f + 1)]

/-- `Parser::parse` does not terminate on `a = 1;`: every amount of fuel is
exhausted. -/
theorem parse_assignToks_diverges : ∀ f, parse assignToks f = .outOfFuel := by
  intro f
  unfold parse parse_run
  rw [if_neg (by decide : ¬(assignToks.isEmpty = true))]
  rw [parse_loop_assignToks f]

end Parser

end Rlox

namespace Rlox

/-- C1 (counterexample): on two malformed statements separated by a valid
one, the collected batch has three errors (not two: the trailing `Eof`
declaration also fails), and the caller receives only
`GeneralError "Errors occurred"`, which carries none of the recorded
diagnostics — not the batch. -/
theorem claim_C1_counterexample :
    Parser.parse_run c1_tokens 100 =
      .ok ([Stmt.Expression (Expr.Literal (Literal.Number 1))], c1_batch) 7 ∧
    c1_batch.length ≠ 2 ∧
    Parser.parse c1_tokens 100 = .err (RuntimeError.GeneralError "Errors occurred") 7 ∧
    ∀ e ∈ c1_batch, RuntimeError.GeneralError "Errors occurred" ≠ e :=
  ⟨rfl, by decide, rfl, by decide⟩

/-- C1 (amended): `Parser::parse` keeps collecting an error per failed
declaration instead of stopping at the first, fails exactly when the
collected list is non-empty, and never returns a partial statement list —
but on failure it returns the single `GeneralError "Errors occurred"` and
discards the batch; on the concrete two-bad-one-good input the collected
list has three entries (the trailing `Eof` is parsed as a declaration and
fails too). -/
theorem claim_C1_amended :
    (∀ toks fuel stmts errs p, Parser.parse_run toks fuel = .ok (stmts, errs) p →
      (errs = [] → Parser.parse toks fuel = .ok stmts p) ∧
      (errs ≠ [] →
        Parser.parse toks fuel = .err (RuntimeError.GeneralError "Errors occurred") p)) ∧
    Parser.parse_run c1_tokens 100 =
      .ok ([Stmt.Expression (Expr.Literal (Literal.Number 1))], c1_batch) 7 := by
  constructor
  · intro toks fuel stmts errs p h
    constructor
    · intro he
      subst he
      unfold Parser.parse
      rw [h]
      rfl
    · intro hne
      unfold Parser.parse
      rw [h]
      cases errs with
      | nil => exact absurd rfl hne
      | cons a l => rfl
  · rfl

/-- C1 (witness): the amended theorem applied to the concrete input. -/
theorem claim_C1_witness :
    Parser.parse c1_tokens 100 = .err (RuntimeError.GeneralError "Errors occurred") 7 :=
  (claim_C1_amended.1 c1_tokens 100 _ _ _ claim_C1_amended.2).2 (by decide)

/-- C2: a successful `scan_tokens` result is non-empty, ends in an `Eof`
token, contains no other `Eof`, and the empty input scans to exactly
`[Eof]` (at line 1). -/
theorem claim_C2_scan_eof_invariant :
    (∀ s toks, Scanner.scan_tokens s = .ok toks →
      toks ≠ [] ∧
      (∀ t ∈ toks.dropLast, t.token_type ≠ TokenType.Eof) ∧
      ∃ t, toks.getLast? = some t ∧ t.token_type = TokenType.Eof) ∧
    Scanner.scan_tokens "" = .ok [⟨TokenType.Eof, "", none, 1⟩] := by
  constructor
  · intro s toks h
    obtain ⟨mid, lineF, htoks, hmid⟩ := Scanner.scan_tokens_loop_structure _ _ _ _ _ h
    subst htoks
    simp only [List.nil_append]
    refine ⟨by simp, ?_, ?_⟩
    · intro t ht
      rw [List.dropLast_concat] at ht
      exact (hmid t ht).1
    · exact ⟨_, List.getLast?_concat _, rfl⟩
  · rfl

/-- C2 (witness): the invariant applied to the scan of `"("`. -/
theorem claim_C2_witness :
    (([⟨TokenType.LeftParen, "(", none, 1⟩,
       ⟨TokenType.Eof, "", none, 1⟩] : List Token) ≠ [] ∧
     (∀ t ∈ ([⟨TokenType.LeftParen, "(", none, 1⟩,
              ⟨TokenType.Eof, "", none, 1⟩] : List Token).dropLast,
        t.token_type ≠ TokenType.Eof) ∧
     ∃ t, ([⟨TokenType.LeftParen, "(", none, 1⟩,
            ⟨TokenType.Eof, "", none, 1⟩] : List Token).getLast? = some t ∧
       t.token_type = TokenType.Eof) :=
  claim_C2_scan_eof_invariant.1 "(" _ (by decide)

/-- C3: scanning `"1 + 2 * 3"` panics (out-of-bounds index in
`Scanner::back` because the final digit ends the input); and on the intended
token sequence the expression parser fails at the `+`, because after
consuming an infix operator it examines the operator token itself as the
start of the right operand.  With a trailing newline the scan shows the
intended token sequence. -/
theorem claim_C3_eval :
    Scanner.scan_tokens "1 + 2 * 3" = .panic ∧
    Parser.expression c3_tokens 100 0 =
      .err (RuntimeError.ParseError "Expected expression, found: `Plus`" ⟨TokenValue.Plus⟩) 1 ∧
    Scanner.scan_tokens "1 + 2 * 3\n" = .ok
      [⟨TokenType.Number, "1", some (TokenLiteral.Number 1), 1⟩,
       ⟨TokenType.Plus, "+", none, 1⟩,
       ⟨TokenType.Number, "2", some (TokenLiteral.Number 2), 1⟩,
       ⟨TokenType.Star, "*", none, 1⟩,
       ⟨TokenType.Number, "3", some (TokenLiteral.Number 3), 1⟩,
       ⟨TokenType.Eof, "", none, 1⟩] :=
  ⟨by decide, by decide, by decide⟩

/-- C4: the complete quoted literal `"abc"` FAILS with "Unterminated string"
(the end-of-input check precedes the closing-quote check); the same literal
followed by a space scans fine; and an unterminated string spanning a
newline reports the line reached at end of input (2), not the starting
line (1). -/
theorem claim_C4_eval :
    Scanner.scan_tokens "\"abc\"" = .err "Unterminated string" 1 5 ∧
    Scanner.scan_tokens "\"abc\" " =
      .ok [⟨TokenType.String, "abc", some (TokenLiteral.String "abc"), 1⟩,
           ⟨TokenType.Eof, "", none, 1⟩] ∧
    Scanner.scan_tokens "\"a\nb" = .err "Unterminated string" 2 4 :=
  ⟨by decide, by decide, by decide⟩

/-- C5: scanning the all-digit input `"12"` drops the final digit (the
number token's lexeme is `"1"`, value 1), and scanning the single digit
`"1"` panics (out-of-bounds index in `Scanner::back`). -/
theorem claim_C5_eval :
    Scanner.scan_tokens "12" =
      .ok [⟨TokenType.Number, "1", some (TokenLiteral.Number 1), 1⟩,
           ⟨TokenType.Eof, "", none, 1⟩] ∧
    Scanner.scan_tokens "1" = .panic :=
  ⟨by decide, by decide⟩

/-- C6: `_x` fails with "Unexpected token: _" (underscore is not
alphabetic), and `a1b ` scans as THREE tokens (identifier runs consume only
letters), not a single identifier. -/
theorem claim_C6_eval :
    Scanner.scan_tokens "_x" = .err "Unexpected token: _" 1 1 ∧
    Scanner.scan_tokens "a1b " = .ok
      [⟨TokenType.Identifier, "a", none, 1⟩,
       ⟨TokenType.Number, "1", some (TokenLiteral.Number 1), 1⟩,
       ⟨TokenType.Identifier, "b", none, 1⟩,
       ⟨TokenType.Eof, "", none, 1⟩] :=
  ⟨by decide, by decide⟩

/-- C7 (counterexample): the comment CONSUMES the terminating newline
without incrementing the line counter, so a `+` after `//c\n` is reported
at line 1; under the claim (newline left unconsumed and then scanned) it
would be at line 2. -/
theorem claim_C7_counterexample :
    Scanner.scan_tokens "//c\n+" =
      .ok [⟨TokenType.Plus, "+", none, 1⟩, ⟨TokenType.Eof, "", none, 1⟩] ∧
    Scanner.scan_tokens "//c\n+" ≠
      .ok [⟨TokenType.Plus, "+", none, 2⟩, ⟨TokenType.Eof, "", none, 2⟩] :=
  ⟨by decide, by decide⟩

/-- C7 (amended): comments are fully elided — scanning `"// comment\n42"`
yields exactly the same token sequence as scanning `"42"` — but the comment
discards the rest of the line up to AND INCLUDING the terminating newline
(consumed without a line-counter increment), or up to end of input. -/
theorem claim_C7_amended :
    Scanner.scan_tokens "// comment\n42" = Scanner.scan_tokens "42" ∧
    Scanner.scan_tokens "//c\n+" =
      .ok [⟨TokenType.Plus, "+", none, 1⟩, ⟨TokenType.Eof, "", none, 1⟩] :=
  ⟨by decide, by decide⟩

/-- C8 (counterexample): round-trip kind stability fails.  Scanning `"!= "`
produces a `BangEqual` token whose stored lexeme is only `"!"`; re-scanning
that lexeme yields a `Bang` token, a different kind. -/
theorem claim_C8_counterexample :
    ¬ (∀ s toks, Scanner.scan_tokens s = .ok toks →
        ∀ t ∈ toks, t.token_type ≠ TokenType.Eof →
          ∃ toks2, Scanner.scan_tokens t.lexeme = .ok toks2 ∧
            ∃ t2 ∈ toks2, t2.token_type = t.token_type) := by
  intro hcl
  have h1 : Scanner.scan_tokens "!= " =
      .ok [⟨TokenType.BangEqual, "!", none, 1⟩, ⟨TokenType.Eof, "", none, 1⟩] := by decide
  obtain ⟨toks2, hscan, t2, hmem, hty⟩ :=
    hcl "!= " _ h1 ⟨TokenType.BangEqual, "!", none, 1⟩ (by simp) (by decide)
  have h2 : Scanner.scan_tokens "!" =
      .ok [⟨TokenType.Bang, "!", none, 1⟩, ⟨TokenType.Eof, "", none, 1⟩] := by decide
  rw [show (⟨TokenType.BangEqual, "!", none, 1⟩ : Token).lexeme = "!" from rfl, h2] at hscan
  injection hscan with hscan
  subst hscan
  simp only [List.mem_cons, List.mem_singleton] at hmem
  rcases hmem with rfl | rfl | h
  · exact absurd hty (by decide)
  · exact absurd hty (by decide)
  · exact absurd h (by simp)

/-- C8 (amended): round-trip kind stability does hold for the
single-character punctuation and operator tokens: any such token produced by
a successful scan re-scans, in isolation, to a token of the same kind (with
the same one-character lexeme, at line 1). -/
theorem claim_C8_amended :
    ∀ s toks t, Scanner.scan_tokens s = .ok toks → t ∈ toks →
      t.token_type ∈ punctList →
      Scanner.scan_tokens t.lexeme =
        .ok [⟨t.token_type, t.lexeme, none, 1⟩, ⟨TokenType.Eof, "", none, 1⟩] := by
  intro s toks t hscan hmem hp
  obtain ⟨mid, lineF, htoks, hmid⟩ := Scanner.scan_tokens_loop_structure _ _ _ _ _ hscan
  subst htoks
  simp only [List.nil_append] at hmem
  have hlex : t.lexeme = punctLexeme t.token_type := by
    rcases List.mem_append.mp hmem with hm | hm
    · exact (hmid t hm).2 hp
    · simp only [List.mem_singleton] at hm
      subst hm
      simp [punctList] at hp
  rw [hlex]
  revert hp
  generalize t.token_type = k
  intro hp
  fin_cases hp <;> decide

/-- C8 (witness): the amended round-trip applied to the `LeftParen` token of
a scan of `"("`. -/
theorem claim_C8_witness :
    Scanner.scan_tokens "(" =
      .ok [⟨TokenType.LeftParen, "(", none, 1⟩, ⟨TokenType.Eof, "", none, 1⟩] :=
  claim_C8_amended "("
    [⟨TokenType.LeftParen, "(", none, 1⟩, ⟨TokenType.Eof, "", none, 1⟩]
    ⟨TokenType.LeftParen, "(", none, 1⟩ (by decide) (by simp) (by decide)

/-- C9 (counterexample): `Parser::parse` does NOT terminate on every finite
token vector: on the tokens of `a = 1;` the `assignment` production recurses
without consuming the `=`, and every amount of fuel is exhausted. -/
theorem claim_C9_counterexample : Parser.divergesOn assignToks :=
  Parser.parse_assignToks_diverges

/-- C9 (amended): the scanner terminates on every finite input (its
`length + 1` fuel bound is never exhausted, because every `scan_token` step
strictly advances the cursor — second conjunct); the parser, however,
diverges on assignment token sequences such as `a = 1;`. -/
theorem claim_C9_amended :
    (∀ s, Scanner.scan_tokens s ≠ .outOfFuel) ∧
    (∀ (chars : List Char) (fuel pos line : Nat) (o : Option Token) (pos1 line1 : Nat),
       Scanner.scan_token chars fuel pos line = .ok (o, pos1, line1) → pos < pos1) ∧
    (∀ fuel, Parser.parse assignToks fuel = .outOfFuel) := by
  refine ⟨Scanner.scan_tokens_total, ?_, Parser.parse_assignToks_diverges⟩
  intro chars fuel pos line o pos1 line1 h
  exact (Scanner.scan_token_spec h).1.1

/-- C9 (witness): the progress property applied to one concrete
`scan_token` step. -/
theorem claim_C9_witness : (0 : Nat) < 1 :=
  claim_C9_amended.2.1 ['('] 1 0 1 (some ⟨TokenType.LeftParen, "(", none, 1⟩) 1 1
    (by decide)

/-- C10 (counterexample): the bare input `"true"` does NOT scan to the
`True` keyword token: the final character is dropped at end of input, so it
becomes `Identifier "tru"`. -/
theorem claim_C10_counterexample :
    Scanner.scan_tokens "true" =
      .ok [⟨TokenType.Identifier, "tru", none, 1⟩, ⟨TokenType.Eof, "", none, 1⟩] ∧
    TokenType.Identifier ≠ TokenType.True :=
  ⟨by decide, by decide⟩

/-- C10 (amended): keyword recognition is case-insensitive — the scanner
lowercases the scanned word before the comparison, so `true `, `True ` and
`TRUE ` (keyword followed by a delimiter) all produce the `True` keyword
token with the original-case lexeme; in general any accumulated word whose
lowercasing is `"true"` maps to the `True` token, and any word whose
lowercasing is in the keyword set never becomes an `Identifier` token and
keeps its original lexeme.  (A keyword that ends the input is truncated by
one character first — see the counterexample.) -/
theorem claim_C10_amended :
    Scanner.scan_tokens "true " =
      .ok [⟨TokenType.True, "true", none, 1⟩, ⟨TokenType.Eof, "", none, 1⟩] ∧
    Scanner.scan_tokens "True " =
      .ok [⟨TokenType.True, "True", none, 1⟩, ⟨TokenType.Eof, "", none, 1⟩] ∧
    Scanner.scan_tokens "TRUE " =
      .ok [⟨TokenType.True, "TRUE", none, 1⟩, ⟨TokenType.Eof, "", none, 1⟩] ∧
    (∀ lex line, Scanner.lowerString lex = "true" →
      Scanner.keyword_token lex line = ⟨TokenType.True, lex, none, line⟩) ∧
    (∀ lex line, Scanner.lowerString lex ∈ keywordStrings →
      (Scanner.keyword_token lex line).token_type ≠ TokenType.Identifier ∧
      (Scanner.keyword_token lex line).lexeme = lex) := by
  refine ⟨by decide, by decide, by decide, ?_, ?_⟩
  · intro lex line h
    unfold Scanner.keyword_token
    rw [h]
    rfl
  · intro lex line h
    unfold Scanner.keyword_token
    generalize hk : Scanner.lowerString lex = k at h ⊢
    fin_cases h <;> exact ⟨(fun hbad => nomatch hbad), rfl⟩

/-- C10 (witness): the amended case-insensitivity applied to a mixed-case
spelling. -/
theorem claim_C10_witness :
    Scanner.keyword_token "tRuE" 5 = ⟨TokenType.True, "tRuE", none, 5⟩ :=
  claim_C10_amended.2.2.2.1 "tRuE" 5 (by decide)

end Rlox
